import Mathlib

/-!
Verification of the concurrency scaffold in `playground/asyncio-example.py`
and `playground/asyncio-readkey.py`.

The scripts are single-threaded cooperative (asyncio) programs.  Time is
modelled with rationals (`ℚ`), the cooperative scheduler with explicit
event lists / step relations, and the asyncio library primitives
(`as_completed`, `Queue`, task cancellation) by their documented
semantics at the suspension points the scripts actually use.
-/

/-! ## First-Completed Waiter (`asyncio-example.py`, `main`)

The script builds `tasks = [print_num(i) for i in range(5)]`, where
`print_num n` sleeps for its duration then returns `n`, and iterates
`asyncio.as_completed(tasks, timeout=10)`, awaiting each result.

`random.uniform(1, 2)` is the only source of the sleep durations in the
script; the claims inject deterministic durations, so the embedding is
parametric in the list of durations (task `i` gets `durations[i]`).

`asyncio.as_completed` semantics: all tasks start at time 0 and run
concurrently; the iterator yields each task as it completes, in
completion-time order (ties broken by the scheduler; the claims use
pairwise-distinct durations).  If the timeout elapses first, iteration
stops with `TimeoutError` and the still-running tasks are left running:
`as_completed` does not cancel them.  A task finishing exactly at the
timeout is a scheduler race; the claims stay away from that boundary and
the model lets it complete. -/

/-- Outcome of one run of the waiter loop: the ids yielded by the
`for task in as_completed(...)` loop in order, the ids of tasks still
running when the wait ended, and the ids of tasks the waiter cancelled
(`as_completed` and the loop body cancel nothing, so this is built from
the absence of any `cancel()` call in the source). -/
structure WaitRun where
  yielded : List Nat
  abandoned : List Nat
  cancelled : List Nat
  deriving Repr, DecidableEq

/-- The tasks of `main`: ids `0..n-1` paired with their sleep durations. -/
def waiterTasks (durations : List ℚ) : List (Nat × ℚ) :=
  durations.enum

/-- One run of `main` in `asyncio-example.py` with injected durations and
an overall timeout: task `i` completes at time `durations[i]`; results are
yielded in completion order until the timeout cuts the wait off. -/
def firstCompletedWaiter (durations : List ℚ) (timeout : ℚ) : WaitRun :=
  let tasks := waiterTasks durations
  let finished := tasks.filter (fun p => p.2 ≤ timeout)
  let ordered := finished.insertionSort (fun p q => p.2 ≤ q.2)
  { yielded := ordered.map (fun p => p.1)
    abandoned := (tasks.filter (fun p => ¬ p.2 ≤ timeout)).map (fun p => p.1)
    cancelled := [] }

/-- The durations the spec's test vector injects: `[0.1, 0.5, 0.3, 0.2, 0.4]`. -/
def specDurations : List ℚ :=
  [1/10, 5/10, 3/10, 2/10, 4/10]

/-! ## Key Poller (`asyncio-readkey.py`, `read_key`)

```python
k = curses.ERR
while k == curses.ERR:
    await asyncio.sleep(0.01)  # async waiting
    k = stdscr.getch()         # non-blocking with curses.halfdelay() mode
return k
```

The input source is modelled as the script of successive `getch()`
results (one entry per call); `curses.ERR = -1` is the "no key pending"
sentinel.  The run counts the `getch()` polls and the `asyncio.sleep`
suspensions and returns the first non-`ERR` code; if the script runs out
before a key appears the coroutine is still suspended (`none`). -/

/-- The `curses.ERR` sentinel returned by a non-blocking `getch()` with
no key pending. -/
def cursesERR : Int := -1

/-- The `while k == curses.ERR` loop of `read_key`, threading the counts
of polls (`getch` calls) and suspensions (`asyncio.sleep(0.01)` awaits).
Each iteration sleeps first, then polls, exactly as in the source. -/
def readKeyLoop : List Int → Nat → Nat → Option (Nat × Nat × Int)
  | [], _, _ => none
  | k :: rest, polls, sleeps =>
    if k = cursesERR then
      readKeyLoop rest (polls + 1) (sleeps + 1)
    else
      some (polls + 1, sleeps + 1, k)

/-- `read_key` on a given `getch()` script: `(polls, sleeps, key)`. -/
def read_key (script : List Int) : Option (Nat × Nat × Int) :=
  readKeyLoop script 0 0

/-! ## Debounced Reset Timer (`asyncio-readkey.py`, `echo_key` + `clear_key`)

`clear_key stdscr delay` sleeps `delay` time units and then writes the
"no key pressing" message (the firing).  In `echo_key`, handling a
non-quit key at time `t` runs:

```python
if clear_key_task is not None and not clear_key_task.done():
    clear_key_task.cancel()
clear_key_task = asyncio.create_task(clear_key(stdscr, countdown_seconds=2))
```

so a timer armed at time `t` fires at `t + delay` unless it is cancelled
first; it is cancelled when the next key arrives (if it has not fired by
then) or when the loop quits at the end of the run (the `horizon`).
Cancellation takes effect while the task is suspended in its sleep, so a
timer fires iff its fire time is reached no later than its cancellation
point.  A fire time equal to an intermediate arm time is a scheduler
race the claims do not exercise; the model lets the earlier timer
complete (`≤`), matching `done()` being true once the sleep has elapsed. -/

/-- Fire times of the debounced reset timer for a run that arms the
timer at each time in `armTimes` (strictly increasing) and quits at
`horizon`: the timer armed at `t` fires at `t + delay` iff that instant
is reached before the cancellation triggered by the next arm (or, for
the last timer, by the quit-time cancellation in `echo_key`). -/
def debounceFireTimes (delay : ℚ) : List ℚ → ℚ → List ℚ
  | [], _ => []
  | [t], horizon => if t + delay ≤ horizon then [t + delay] else []
  | t :: t' :: rest, horizon =>
    (if t + delay ≤ t' then [t + delay] else []) ++
      debounceFireTimes delay (t' :: rest) horizon

/-! ## `echo_key` and the drain phase of `main` as an event trace

For the claims about what the Running loop touches and about the order
of the shutdown steps, `echo_key` and the tail of `main` are embedded as
producers of an event trace.  The input is the script of values returned
by successive `read_key` calls; since `clear_key_task.done()` depends on
real time (whether the armed `clear_key` sleep has elapsed), each script
entry carries the oracle bit "the previously armed timer was already
done at this check" (the timing model above settles when that bit can be
true).  The trace records the display writes and task operations the
code performs, in program order. -/

/-- Observable operations of `echo_key` and the shutdown tail of `main`. -/
inductive Ev where
  /-- `curses_print` of "Last key pressed: k" (the key line of the display). -/
  | echoKey (k : Int)
  /-- `clear_key_task.cancel()` on the pending reset timer. -/
  | cancelTimer
  /-- `asyncio.create_task(clear_key(stdscr, countdown_seconds=2))`. -/
  | armTimer
  /-- `stdscr.clear(); stdscr.refresh()` at the end of `echo_key`. -/
  | clearScreen
  /-- `timer_generator_task.cancel()` in `main`. -/
  | cancelProducer
  /-- `await timer_queue.join()` in `main`. -/
  | queueJoin
  /-- `timer_echo_task.cancel()` in `main`. -/
  | cancelConsumer
  deriving Repr, DecidableEq

/-- The quit key code tested by `if k == 27: break`. -/
def quitKey : Int := 27

/-- The `while True` loop of `echo_key` plus its tail, over a script of
`(key, previousTimerDone)` pairs and the flag whether a `clear_key` task
object exists (`clear_key_task is not None`).  Returns `none` when the
script is exhausted before a quit key: the real coroutine would then be
suspended forever inside `read_key`. -/
def echoKeyLoop : List (Int × Bool) → Bool → Option (List Ev)
  | [], _ => none
  | (k, prevDone) :: rest, hasTask =>
    if k = quitKey then
      some ((if hasTask = true ∧ prevDone = false then [Ev.cancelTimer] else []) ++
        [Ev.clearScreen])
    else
      (echoKeyLoop rest true).map (fun evs =>
        Ev.echoKey k ::
          ((if hasTask = true ∧ prevDone = false then [Ev.cancelTimer] else []) ++
            Ev.armTimer :: evs))

/-- `echo_key`: the loop is entered with `clear_key_task = None`. -/
def echo_key (script : List (Int × Bool)) : Option (List Ev) :=
  echoKeyLoop script false

/-- The part of `main` the drain claims are about: `await echo_key(...)`
followed by the literal shutdown tail

```python
timer_generator_task.cancel()
await timer_queue.join()
timer_echo_task.cancel()
```
(the initial task creation and `curses_shutdown` are modelled
separately, by the queue model and the wrapper trace below). -/
def mainRun (script : List (Int × Bool)) : Option (List Ev) :=
  (echo_key script).map
    (fun evs => evs ++ [Ev.cancelProducer, Ev.queueJoin, Ev.cancelConsumer])

/-- Events emitted by the iterations of the `echo_key` loop for the keys
handled before the quit key, starting from task-existence flag
`hasTask`; used to characterise `echoKeyLoop` runs. -/
def loopEvs : List (Int × Bool) → Bool → List Ev
  | [], _ => []
  | (k, prevDone) :: rest, hasTask =>
    Ev.echoKey k ::
      ((if hasTask = true ∧ prevDone = false then [Ev.cancelTimer] else []) ++
        Ev.armTimer :: loopEvs rest true)

/-! ## The bounded timer queue (`timer_generator` / `timer_echo`)

`main` creates `timer_queue = asyncio.Queue(maxsize=100)`.  The producer
`timer_generator` repeatedly computes a timestamp and `await`s
`timer_queue.put(now)`; `put` on a full queue suspends the producer until
space frees and never drops an item.  The consumer `timer_echo`
repeatedly `await`s `timer_queue.get()`, then calls
`timer_queue.task_done()` and renders — `strftime`, `task_done` and
`curses_print` contain no suspension point, so a consumer scheduling
slot performs get and task_done together.  `asyncio.Queue` keeps an
internal count of unfinished items: `put` increments it, `task_done`
decrements it, and `join()` resumes once it is zero.

Ticks are identified by their production index, so tick `i` is the
`i`-th timestamp `timer_generator` computed (timestamps from
`datetime.now()` are monotone, so the index order is the time order).
A run is an arbitrary interleaving of producer and consumer scheduling
slots, which covers every schedule the cooperative event loop can
produce for these two tasks. -/

/-- `asyncio.Queue(maxsize=100)`. -/
def queueCapacity : Nat := 100

/-- Which of the two queue tasks the event loop schedules next. -/
inductive QStep where
  | producerStep
  | consumerStep
  deriving Repr, DecidableEq

/-- State of the producer/consumer pair: how many ticks the producer has
put so far, the queue contents (front first), the ticks the consumer has
rendered in order, and the queue's count of unfinished items. -/
structure QState where
  produced : Nat
  buffer : List Nat
  consumed : List Nat
  unfinished : Nat
  deriving Repr, DecidableEq

/-- The initial state: empty queue, nothing produced or consumed. -/
def qInit : QState := ⟨0, [], [], 0⟩

/-- One scheduling slot.  A producer slot performs `put(now)` when the
queue has room and otherwise leaves the producer suspended in `put`
(nothing is dropped: the tick is simply not yet put).  A consumer slot
performs `get()` followed by `task_done()` when the queue is nonempty
and otherwise leaves the consumer suspended in `get`. -/
def qStep : QStep → QState → QState
  | QStep.producerStep, s =>
    if s.buffer.length < queueCapacity then
      { produced := s.produced + 1
        buffer := s.buffer ++ [s.produced]
        consumed := s.consumed
        unfinished := s.unfinished + 1 }
    else s
  | QStep.consumerStep, s =>
    match s.buffer with
    | [] => s
    | x :: rest =>
      { produced := s.produced
        buffer := rest
        consumed := s.consumed ++ [x]
        unfinished := s.unfinished - 1 }

/-- Run a schedule of slots from the initial state. -/
def qRun (sched : List QStep) : QState :=
  sched.foldl (fun s e => qStep e s) qInit

/-- After the producer is cancelled (it puts nothing further), the
consumer keeps draining: the state after `n` more consumer slots. -/
def qDrain (n : Nat) (s : QState) : QState :=
  (qStep QStep.consumerStep)^[n] s

/-! ## `os.environ.setdefault("ESCDELAY", "25")` (`main_wrapper`)

The process environment is an association list keyed by variable name;
`dict.setdefault(key, value)` inserts `key ↦ value` only when `key` is
absent and returns the mapping otherwise unchanged. -/

/-- A process environment. -/
abbrev Env : Type := List (String × String)

/-- `os.environ.setdefault`. -/
def setdefault (env : Env) (key val : String) : Env :=
  match List.lookup key env with
  | some _ => env
  | none => (key, val) :: env

/-- The environment mutation `main_wrapper` performs before calling
`curses.wrapper(main)`. -/
def mainWrapperEnv (env : Env) : Env :=
  setdefault env "ESCDELAY" "25"

/-! ## `main_wrapper` terminal lifecycle (`await curses.wrapper(main)`)

`curses.wrapper(func)` runs, inside a `try`/`finally`:
`initscr` and raw-mode setup, then `return func(stdscr)`, and the
`finally` block restores the terminal (`keypad(0)`, `echo`, `nocbreak`,
`endwin`).  `main` is a coroutine function, so `func(stdscr)` merely
creates the coroutine object without executing its body; the `finally`
restoration therefore runs before `await` starts executing `main`.  The
body of `main` then runs `curses_init`, the Running loop, and — only on
the fall-through path, there being no `try`/`finally` in `main` —
`curses_shutdown(stdscr)`, whose terminal restoration
(`nocbreak`, `echo`, `curs_set(True)`, `keypad(False)`, `endwin`) is the
second possible restoration event.  An unhandled exception in the
Running phase propagates out of the awaited coroutine and out of
`asyncio.run`, skipping `curses_shutdown`. -/

/-- Lifecycle events of one `asyncio.run(main_wrapper())` process run. -/
inductive WEv where
  /-- `curses.wrapper`: `initscr` plus raw-mode setup. -/
  | wrapperInit
  /-- A terminal restoration: `curses.wrapper`'s `finally` block or
  `curses_shutdown`. -/
  | restoreTerminal
  /-- The coroutine `main` starts executing: `curses_init` has run and
  the Running phase (the `echo_key` loop) begins. -/
  | runningStart
  /-- The Running phase ends with the quit key; `main` drains its tasks
  and reaches its final statement. -/
  | terminated
  /-- An unhandled exception is raised during Running and propagates. -/
  | faultRaised
  deriving Repr, DecidableEq

/-- The event trace of `asyncio.run(main_wrapper())`:
`curses.wrapper(main)` sets the terminal up, creates the `main`
coroutine, restores the terminal in its `finally`, and returns the
coroutine; `await` then runs `main`, which either completes the quit
path and calls `curses_shutdown`, or hits an unhandled fault and unwinds
with no further restoration. -/
def mainWrapperTrace (faultDuringRunning : Bool) : List WEv :=
  [WEv.wrapperInit, WEv.restoreTerminal, WEv.runningStart] ++
    (if faultDuringRunning then [WEv.faultRaised]
     else [WEv.terminated, WEv.restoreTerminal])

/-- Number of terminal restorations performed at or after the start of
the Running phase — the teardown the coordinator owes once the display
is live. -/
def teardownCount (tr : List WEv) : Nat :=
  (tr.dropWhile (fun e => ¬ e = WEv.runningStart)).count WEv.restoreTerminal

/-! ## Debounce lemmas -/

/-- Every fire time of a run whose arm times start at `t` (and are
strictly increasing) is at least `t + delay`. -/
theorem debounce_fire_lb (delay : ℚ) (arms : List ℚ) :
    ∀ t horizon, (t :: arms).Chain' (· < ·) →
      ∀ x ∈ debounceFireTimes delay (t :: arms) horizon, t + delay ≤ x := by
  induction arms with
  | nil =>
    intro t horizon _ x hx
    simp only [debounceFireTimes] at hx
    by_cases hfire : t + delay ≤ horizon
    · rw [if_pos hfire] at hx
      simp only [List.mem_singleton] at hx
      exact le_of_eq hx.symm
    · rw [if_neg hfire] at hx
      simp at hx
  | cons t' rest ih =>
    intro t horizon hchain x hx
    have ht : t < t' := (List.chain'_cons.mp hchain).1
    simp only [debounceFireTimes, List.mem_append] at hx
    rcases hx with hx | hx
    · by_cases hfire : t + delay ≤ t'
      · rw [if_pos hfire] at hx
        simp only [List.mem_singleton] at hx
        exact le_of_eq hx.symm
      · rw [if_neg hfire] at hx
        simp at hx
    · have := ih t' horizon (List.chain'_cons.mp hchain).2 x hx
      linarith

/-- The fire times of a debounced run are strictly increasing: no two
firings of the reset timer happen at the same instant, in particular the
timers never fire concurrently. -/
theorem debounce_fires_chain (delay : ℚ) (hd : 0 < delay) (horizon : ℚ) :
    ∀ arms : List ℚ, arms.Chain' (· < ·) →
      (debounceFireTimes delay arms horizon).Chain' (· < ·) := by
  intro arms
  induction arms with
  | nil => intro _; simp [debounceFireTimes]
  | cons t rest ih =>
    intro hchain
    match rest with
    | [] =>
      simp only [debounceFireTimes]
      by_cases hfire : t + delay ≤ horizon
      · rw [if_pos hfire]; simp
      · rw [if_neg hfire]; simp
    | t' :: rest' =>
      have htail : (t' :: rest').Chain' (· < ·) := (List.chain'_cons.mp hchain).2
      have hrec := ih htail
      simp only [debounceFireTimes]
      by_cases hfire : t + delay ≤ t'
      · rw [if_pos hfire]
        simp only [List.singleton_append]
        refine List.chain'_cons'.mpr ⟨?_, hrec⟩
        intro y hy
        have hymem : y ∈ debounceFireTimes delay (t' :: rest') horizon :=
          List.mem_of_mem_head? hy
        have := debounce_fire_lb delay rest' t' horizon htail y hymem
        linarith
      · rw [if_neg hfire]
        simpa using hrec

/-! ## `echo_key` run characterisation -/

/-- Whether an event is a write to the key line of the display. -/
def isEchoEv : Ev → Bool
  | Ev.echoKey _ => true
  | _ => false

/-- Running `echoKeyLoop` on a script whose first quit key comes after
`pre` yields exactly the loop events for `pre`, then the quit-time
cancellation of the pending reset timer (pending iff some key armed one,
or one was live on entry, and it has not fired), then the screen clear.
The events after the quit key's script entry are never read. -/
theorem echoKeyLoop_quit (dq : Bool) (rest : List (Int × Bool)) :
    ∀ (pre : List (Int × Bool)) (h : Bool), (∀ p ∈ pre, p.1 ≠ quitKey) →
      echoKeyLoop (pre ++ (quitKey, dq) :: rest) h =
        some (loopEvs pre h ++
          ((if (h = true ∨ pre ≠ []) ∧ dq = false then [Ev.cancelTimer] else []) ++
            [Ev.clearScreen])) := by
  intro pre
  induction pre with
  | nil =>
    intro h _
    simp [echoKeyLoop, loopEvs]
  | cons p pre ih =>
    intro h hnq
    obtain ⟨k, d⟩ := p
    have hk : ¬ k = quitKey := hnq (k, d) (List.mem_cons_self _ _)
    simp only [List.cons_append, echoKeyLoop, if_neg hk, List.append_eq]
    rw [ih true (fun q hq => hnq q (List.mem_cons_of_mem _ hq))]
    simp [loopEvs]

/-- Every event of the pre-quit loop portion is a key-line write for a
key of the script, a reset-timer cancellation, or a reset-timer arm. -/
theorem loopEvs_mem (e : Ev) :
    ∀ (pre : List (Int × Bool)) (h : Bool), e ∈ loopEvs pre h →
      e = Ev.cancelTimer ∨ e = Ev.armTimer ∨
        ∃ k d, (k, d) ∈ pre ∧ e = Ev.echoKey k := by
  intro pre
  induction pre with
  | nil => intro h he; simp [loopEvs] at he
  | cons p pre ih =>
    intro h he
    obtain ⟨k, d⟩ := p
    simp only [loopEvs, List.mem_cons, List.mem_append] at he
    rcases he with rfl | he
    · exact Or.inr (Or.inr ⟨k, d, List.mem_cons_self _ _, rfl⟩)
    rcases he with he | he
    · left
      by_cases hc : h = true ∧ d = false
      · rw [if_pos hc] at he
        simpa using he
      · rw [if_neg hc] at he
        simp at he
    · rcases he with rfl | he
      · exact Or.inr (Or.inl rfl)
      · rcases ih true he with h1 | h1 | ⟨k', d', hm, he'⟩
        · exact Or.inl h1
        · exact Or.inr (Or.inl h1)
        · exact Or.inr (Or.inr ⟨k', d', List.mem_cons_of_mem _ hm, he'⟩)

/-- One reset timer is armed per non-quit key handled. -/
theorem loopEvs_count_arm :
    ∀ (pre : List (Int × Bool)) (h : Bool),
      (loopEvs pre h).count Ev.armTimer = pre.length := by
  intro pre
  induction pre with
  | nil => intro h; simp [loopEvs]
  | cons p pre ih =>
    intro h
    obtain ⟨k, d⟩ := p
    by_cases hc : h = true ∧ d = false
    · simp [loopEvs, if_pos hc, List.count_cons, List.count_append, ih true]
    · simp [loopEvs, if_neg hc, List.count_cons, List.count_append, ih true]

/-- One key-line write is performed per non-quit key handled. -/
theorem loopEvs_countP_echo :
    ∀ (pre : List (Int × Bool)) (h : Bool),
      (loopEvs pre h).countP isEchoEv = pre.length := by
  intro pre
  induction pre with
  | nil => intro h; simp [loopEvs]
  | cons p pre ih =>
    intro h
    obtain ⟨k, d⟩ := p
    by_cases hc : h = true ∧ d = false
    · simp [loopEvs, if_pos hc, List.countP_cons, List.countP_append, ih true, isEchoEv]
    · simp [loopEvs, if_neg hc, List.countP_cons, List.countP_append, ih true, isEchoEv]

/-! ## Queue invariants -/

/-- Invariant of the producer/consumer pair: the consumed ticks followed
by the queued ticks are exactly ticks `0, 1, …, produced − 1` in order,
the unfinished count equals the queue length, and the queue never holds
more than its capacity. -/
def QInv (s : QState) : Prop :=
  s.consumed ++ s.buffer = List.range s.produced ∧
    s.unfinished = s.buffer.length ∧
    s.buffer.length ≤ queueCapacity

theorem qInv_init : QInv qInit := by
  simp [QInv, qInit, queueCapacity]

theorem qInv_step (e : QStep) (s : QState) (h : QInv s) : QInv (qStep e s) := by
  obtain ⟨horder, hunf, hcap⟩ := h
  cases e with
  | producerStep =>
    by_cases hfull : s.buffer.length < queueCapacity
    · simp only [qStep, if_pos hfull, QInv]
      refine ⟨?_, ?_, ?_⟩
      · rw [← List.append_assoc, horder, List.range_succ]
      · simp [hunf]
      · simp only [List.length_append, List.length_singleton]
        omega
    · simp only [qStep, if_neg hfull]
      exact ⟨horder, hunf, hcap⟩
  | consumerStep =>
    match hbuf : s.buffer with
    | [] =>
      simp only [qStep, hbuf]
      exact ⟨horder, hunf, hcap⟩
    | x :: rest =>
      rw [hbuf] at horder hunf hcap
      simp only [qStep, hbuf, QInv]
      refine ⟨?_, ?_, ?_⟩
      · rw [← horder]; simp
      · simp only [List.length_cons] at hunf
        omega
      · simp only [List.length_cons] at hcap
        omega

theorem qInv_run (sched : List QStep) : QInv (qRun sched) := by
  suffices h : ∀ (l : List QStep) (s : QState),
      QInv s → QInv (l.foldl (fun s e => qStep e s) s) by
    exact h sched qInit qInv_init
  intro l
  induction l with
  | nil => intro s hs; simpa using hs
  | cons e l ih =>
    intro s hs
    exact ih (qStep e s) (qInv_step e s hs)

theorem qDrain_empties (n : Nat) :
    ∀ s : QState, s.unfinished = s.buffer.length → s.buffer.length = n →
      (qDrain n s).buffer = [] ∧ (qDrain n s).unfinished = 0 := by
  induction n with
  | zero =>
    intro s hunf hlen
    have : s.buffer = [] := List.length_eq_zero.mp hlen
    simp [qDrain, this] at hunf ⊢
    simp [hunf, hlen]
  | succ n ih =>
    intro s hunf hlen
    match hbuf : s.buffer with
    | [] => rw [hbuf] at hlen; simp at hlen
    | x :: rest =>
      rw [hbuf] at hunf hlen
      have hstep : qStep QStep.consumerStep s =
          { produced := s.produced, buffer := rest,
            consumed := s.consumed ++ [x], unfinished := s.unfinished - 1 } := by
        simp [qStep, hbuf]
      have hdrain : qDrain (n + 1) s = qDrain n (qStep QStep.consumerStep s) := by
        simp [qDrain, Function.iterate_succ_apply]
      rw [hdrain, hstep]
      exact ih _ (by simp at hunf ⊢; omega) (by simp at hlen ⊢; omega)

/-! ## Claims -/

/-- Claim C1: the spec requires that every exit path of the coordinator
— clean quit and unhandled fault during Running alike — tears the
display sink down exactly once.  The code delivers this only on the
clean-quit path: `curses_shutdown` is the last statement of `main`, not
a `finally` handler, and because `main` is a coroutine function the
`finally` restoration of `curses.wrapper` runs before the Running phase
even starts.  The theorem evaluates both paths of the embedded
lifecycle: clean quit terminates with exactly one teardown, while a
fault during Running leaves the terminal with zero teardowns, against
the claim. -/
theorem mainWrapper_teardown_paths :
    teardownCount (mainWrapperTrace false) = 1 ∧
      WEv.terminated ∈ mainWrapperTrace false ∧
      teardownCount (mainWrapperTrace true) = 0 := by
  decide

/-- Claim C2: the First-Completed Waiter with injected durations
`[0.1, 0.5, 0.3, 0.2, 0.4]` and timeout `10` yields the results in
completion order `[0, 3, 2, 4, 1]`, not in submission order. -/
theorem waiter_completion_order :
    (firstCompletedWaiter specDurations 10).yielded = [0, 3, 2, 4, 1] ∧
      (firstCompletedWaiter specDurations 10).yielded ≠ [0, 1, 2, 3, 4] := by
  have h : firstCompletedWaiter specDurations 10 =
      { yielded := [0, 3, 2, 4, 1], abandoned := [], cancelled := [] } := by
    norm_num [firstCompletedWaiter, waiterTasks, specDurations, List.insertionSort,
      List.orderedInsert, List.filter, List.enum]
  rw [h]
  exact ⟨rfl, by decide⟩

/-- Claim C3: arming the debounced reset timer twice within `delay`
fires exactly once (the second arm cancels the first); arming once and
waiting at least `delay` fires exactly once; and the fire times of any
run with strictly increasing arm times are strictly increasing, so no
two timers for the slot ever fire concurrently. -/
theorem debounce_single_firing (delay t₁ t₂ horizon : ℚ)
    (hdelay : 0 < delay) (_h12 : t₁ < t₂) (hwithin : t₂ < t₁ + delay)
    (hrun : t₂ + delay ≤ horizon) :
    (debounceFireTimes delay [t₁, t₂] horizon).length = 1 ∧
      (∀ H : ℚ, t₁ + delay ≤ H → (debounceFireTimes delay [t₁] H).length = 1) ∧
      (∀ arms : List ℚ, arms.Chain' (· < ·) →
        (debounceFireTimes delay arms horizon).Chain' (· < ·)) := by
  refine ⟨?_, ?_, ?_⟩
  · have hnot : ¬ t₁ + delay ≤ t₂ := by linarith
    simp [debounceFireTimes, if_neg hnot, if_pos hrun]
  · intro H hH
    simp [debounceFireTimes, if_pos hH]
  · intro arms harms
    exact debounce_fires_chain delay hdelay horizon arms harms

/-- Witness for `debounce_single_firing` at `delay = 2`, arms at times
`0` and `1`, horizon `10`. -/
theorem debounce_single_firing_witness :
    ((0 : ℚ) < 2 ∧ (0 : ℚ) < 1 ∧ (1 : ℚ) < 0 + 2 ∧ (1 : ℚ) + 2 ≤ 10) ∧
      (debounceFireTimes 2 [0, 1] 10).length = 1 :=
  ⟨⟨by norm_num, by norm_num, by norm_num, by norm_num⟩,
    (debounce_single_firing 2 0 1 10 (by norm_num) (by norm_num) (by norm_num)
      (by norm_num)).1⟩

/-- Claim C4, counterexample: on the script with three empty polls then
key `113`, `read_key` does not perform `4` polls with only `3`
suspensions — the loop body sleeps before every poll, including the
successful one. -/
theorem read_key_three_sleeps_false :
    ¬ read_key [cursesERR, cursesERR, cursesERR, 113] = some (4, 3, 113) := by
  decide

/-- Claim C4, amended: on the script with three empty polls then key
`113`, `read_key` performs exactly `4` polls and exactly `4`
suspensions (one 10 ms sleep before every poll, the successful one
included) and returns `113`. -/
theorem read_key_four_sleeps :
    read_key [cursesERR, cursesERR, cursesERR, 113] = some (4, 4, 113) := by
  decide

/-- Claim C5: under every interleaving of the producer and consumer,
the consumed ticks followed by the queued ticks are exactly the ticks
produced, in production order — the bounded channel is FIFO and drops
nothing (a producer slot on a full queue leaves it suspended) — the
queue never exceeds its capacity of 100, and hence the consumer has
observed exactly the first `consumed.length` produced ticks in order. -/
theorem queue_fifo_order (sched : List QStep) :
    (qRun sched).consumed ++ (qRun sched).buffer = List.range (qRun sched).produced ∧
      (qRun sched).buffer.length ≤ queueCapacity ∧
      (qRun sched).consumed =
        (List.range (qRun sched).produced).take (qRun sched).consumed.length := by
  obtain ⟨horder, hunf, hcap⟩ := qInv_run sched
  refine ⟨horder, hcap, ?_⟩
  rw [← horder, List.take_left]

/-- Claim C10: after any interleaving, the queue's count of
unacknowledged items equals the number of ticks put but not yet
acknowledged (the consumer acknowledges exactly one item per item it
takes), and once the producer is cancelled the consumer empties the
queue in finitely many slots, bringing the count to zero — so
`timer_queue.join()` in `main` terminates. -/
theorem queue_join_terminates (sched : List QStep) :
    (qRun sched).unfinished = (qRun sched).buffer.length ∧
      (qDrain (qRun sched).buffer.length (qRun sched)).buffer = [] ∧
      (qDrain (qRun sched).buffer.length (qRun sched)).unfinished = 0 := by
  obtain ⟨horder, hunf, hcap⟩ := qInv_run sched
  have h := qDrain_empties (qRun sched).buffer.length (qRun sched) hunf rfl
  exact ⟨hunf, h.1, h.2⟩

/-- Claim C6: once the quit key is received, the drain phase runs in
order — the pending reset timer is cancelled first (exactly when one is
pending: a key armed one and it has not fired), then the screen is
cleared, the clock producer is cancelled, the queue is joined, and only
then is the consumer cancelled; none of the producer-cancel, join or
consumer-cancel steps occurs anywhere earlier in the run. -/
theorem drain_order (pre : List (Int × Bool)) (dq : Bool) (rest : List (Int × Bool))
    (hnq : ∀ p ∈ pre, p.1 ≠ quitKey) :
    ∃ a : List Ev,
      mainRun (pre ++ (quitKey, dq) :: rest) =
        some (a ++ ((if pre ≠ [] ∧ dq = false then [Ev.cancelTimer] else []) ++
          [Ev.clearScreen, Ev.cancelProducer, Ev.queueJoin, Ev.cancelConsumer])) ∧
      Ev.cancelProducer ∉ a ∧ Ev.queueJoin ∉ a ∧ Ev.cancelConsumer ∉ a := by
  refine ⟨loopEvs pre false, ?_, ?_, ?_, ?_⟩
  · unfold mainRun echo_key
    rw [echoKeyLoop_quit dq rest pre false hnq]
    simp
  · intro hmem
    rcases loopEvs_mem _ pre false hmem with h1 | h1 | ⟨k, d, _, h1⟩ <;> simp at h1
  · intro hmem
    rcases loopEvs_mem _ pre false hmem with h1 | h1 | ⟨k, d, _, h1⟩ <;> simp at h1
  · intro hmem
    rcases loopEvs_mem _ pre false hmem with h1 | h1 | ⟨k, d, _, h1⟩ <;> simp at h1

/-- Witness for `drain_order`: one ordinary key (`113`, its timer still
pending at quit time) followed by the quit key. -/
theorem drain_order_witness :
    (∀ p ∈ [((113 : Int), false)], p.1 ≠ quitKey) ∧
      ∃ a : List Ev,
        mainRun ([((113 : Int), false)] ++ (quitKey, false) :: []) =
          some (a ++ ((if [((113 : Int), false)] ≠ [] ∧ false = false
              then [Ev.cancelTimer] else []) ++
            [Ev.clearScreen, Ev.cancelProducer, Ev.queueJoin, Ev.cancelConsumer])) ∧
        Ev.cancelProducer ∉ a ∧ Ev.queueJoin ∉ a ∧ Ev.cancelConsumer ∉ a :=
  ⟨by decide, drain_order [((113 : Int), false)] false [] (by decide)⟩

/-- Claim C9: when the poller returns the quit code `27`, `echo_key`
exits at once — the trace is the same whatever input would have followed
the quit key — the quit key itself is never echoed to the key line, and
the key line and the timer slot are touched exactly once per non-quit
key: `pre.length` key-line writes, each for a key of the script, and
`pre.length` timer arms. -/
theorem quit_key_leaves_display (pre : List (Int × Bool)) (dq : Bool)
    (rest : List (Int × Bool)) (hnq : ∀ p ∈ pre, p.1 ≠ quitKey) :
    ∃ evs : List Ev,
      echo_key (pre ++ (quitKey, dq) :: rest) = some evs ∧
      echo_key (pre ++ [(quitKey, dq)]) = some evs ∧
      Ev.echoKey quitKey ∉ evs ∧
      (∀ k : Int, Ev.echoKey k ∈ evs → ∃ d : Bool, (k, d) ∈ pre) ∧
      evs.countP isEchoEv = pre.length ∧
      evs.count Ev.armTimer = pre.length := by
  have htail : ∀ e ∈ ((if (false = true ∨ pre ≠ []) ∧ dq = false
        then [Ev.cancelTimer] else []) ++ [Ev.clearScreen]),
      e = Ev.cancelTimer ∨ e = Ev.clearScreen := by
    intro e he
    rcases List.mem_append.mp he with h1 | h1
    · by_cases hc : (false = true ∨ pre ≠ []) ∧ dq = false
      · rw [if_pos hc] at h1
        simp at h1
        exact Or.inl h1
      · rw [if_neg hc] at h1
        simp at h1
    · simp at h1
      exact Or.inr h1
  refine ⟨loopEvs pre false ++
    ((if (false = true ∨ pre ≠ []) ∧ dq = false then [Ev.cancelTimer] else []) ++
      [Ev.clearScreen]), ?_, ?_, ?_, ?_, ?_, ?_⟩
  · exact echoKeyLoop_quit dq rest pre false hnq
  · exact echoKeyLoop_quit dq [] pre false hnq
  · intro hmem
    rcases List.mem_append.mp hmem with h1 | h1
    · rcases loopEvs_mem _ pre false h1 with h2 | h2 | ⟨k, d, hm, h2⟩
      · simp at h2
      · simp at h2
      · have : k = quitKey := by
          have := Ev.echoKey.inj h2
          omega
        exact hnq (k, d) hm (by simp [this])
    · rcases htail _ h1 with h2 | h2 <;> simp at h2
  · intro k hk
    rcases List.mem_append.mp hk with h1 | h1
    · rcases loopEvs_mem _ pre false h1 with h2 | h2 | ⟨k', d, hm, h2⟩
      · simp at h2
      · simp at h2
      · have : k' = k := (Ev.echoKey.inj h2).symm
        exact ⟨d, this ▸ hm⟩
    · rcases htail _ h1 with h2 | h2 <;> simp at h2
  · rw [List.countP_append, List.countP_append, loopEvs_countP_echo pre false]
    by_cases hc : (false = true ∨ pre ≠ []) ∧ dq = false
    · rw [if_pos hc]
      simp [isEchoEv]
    · rw [if_neg hc]
      simp [isEchoEv]
  · rw [List.count_append, List.count_append, loopEvs_count_arm pre false]
    by_cases hc : (false = true ∨ pre ≠ []) ∧ dq = false
    · rw [if_pos hc]
      simp
    · rw [if_neg hc]
      simp

/-- Witness for `quit_key_leaves_display`: one ordinary key then quit. -/
theorem quit_key_leaves_display_witness :
    (∀ p ∈ [((113 : Int), false)], p.1 ≠ quitKey) ∧
      ∃ evs : List Ev,
        echo_key ([((113 : Int), false)] ++ (quitKey, false) :: []) = some evs ∧
        echo_key ([((113 : Int), false)] ++ [(quitKey, false)]) = some evs ∧
        Ev.echoKey quitKey ∉ evs ∧
        (∀ k : Int, Ev.echoKey k ∈ evs → ∃ d : Bool, (k, d) ∈ [((113 : Int), false)]) ∧
        evs.countP isEchoEv = [((113 : Int), false)].length ∧
        evs.count Ev.armTimer = [((113 : Int), false)].length :=
  ⟨by decide, quit_key_leaves_display [((113 : Int), false)] false [] (by decide)⟩

/-- Claim C7: with the same durations and timeout `0.15`, exactly one
result — id `0` — is yielded before the timeout ends the wait, and the
four uncompleted tasks are left running, none of them force-cancelled by
the waiter. -/
theorem waiter_timeout_one_result :
    firstCompletedWaiter specDurations (15/100) =
      { yielded := [0], abandoned := [1, 2, 3, 4], cancelled := [] } := by
  norm_num [firstCompletedWaiter, waiterTasks, specDurations, List.insertionSort,
    List.orderedInsert, List.filter, List.enum]

/-- Claim C8: `os.environ.setdefault("ESCDELAY", "25")` in
`main_wrapper` sets the escape-delay tunable to the short default `25`
only when the caller's environment does not define it; when it is
already set, the environment is left entirely unchanged. -/
theorem escdelay_only_if_unset (env : Env) :
    (∀ v : String, List.lookup "ESCDELAY" env = some v →
      mainWrapperEnv env = env ∧
        List.lookup "ESCDELAY" (mainWrapperEnv env) = some v) ∧
    (List.lookup "ESCDELAY" env = none →
      List.lookup "ESCDELAY" (mainWrapperEnv env) = some "25" ∧
        ∀ key : String, key ≠ "ESCDELAY" →
          List.lookup key (mainWrapperEnv env) = List.lookup key env) := by
  constructor
  · intro v hv
    have heq : mainWrapperEnv env = env := by
      unfold mainWrapperEnv setdefault
      rw [hv]
    exact ⟨heq, by rw [heq, hv]⟩
  · intro hnone
    have heq : mainWrapperEnv env = ("ESCDELAY", "25") :: env := by
      unfold mainWrapperEnv setdefault
      rw [hnone]
    constructor
    · rw [heq]
      simp [List.lookup]
    · intro key hkey
      rw [heq]
      simp only [List.lookup]
      rw [beq_eq_false_iff_ne.mpr hkey]

/-- Witness for `escdelay_only_if_unset`: an environment that already
sets `ESCDELAY` is untouched; an empty environment gets the default. -/
theorem escdelay_only_if_unset_witness :
    (List.lookup "ESCDELAY" [("ESCDELAY", "100")] = some "100" ∧
      mainWrapperEnv [("ESCDELAY", "100")] = [("ESCDELAY", "100")]) ∧
    (List.lookup "ESCDELAY" ([] : Env) = none ∧
      List.lookup "ESCDELAY" (mainWrapperEnv ([] : Env)) = some "25") :=
  ⟨⟨by rfl, ((escdelay_only_if_unset [("ESCDELAY", "100")]).1 "100" (by rfl)).1⟩,
    ⟨by rfl, ((escdelay_only_if_unset ([] : Env)).2 (by rfl)).1⟩⟩

/-- Witness for `queue_fifo_order` on the schedule producer, producer,
consumer, producer, consumer. -/
theorem queue_fifo_order_witness :
    (qRun [QStep.producerStep, QStep.producerStep, QStep.consumerStep,
        QStep.producerStep, QStep.consumerStep]).consumed ++
      (qRun [QStep.producerStep, QStep.producerStep, QStep.consumerStep,
        QStep.producerStep, QStep.consumerStep]).buffer =
      List.range (qRun [QStep.producerStep, QStep.producerStep, QStep.consumerStep,
        QStep.producerStep, QStep.consumerStep]).produced ∧
    (qRun [QStep.producerStep, QStep.producerStep, QStep.consumerStep,
        QStep.producerStep, QStep.consumerStep]).buffer.length ≤ queueCapacity ∧
    (qRun [QStep.producerStep, QStep.producerStep, QStep.consumerStep,
        QStep.producerStep, QStep.consumerStep]).consumed =
      (List.range (qRun [QStep.producerStep, QStep.producerStep, QStep.consumerStep,
        QStep.producerStep, QStep.consumerStep]).produced).take
        (qRun [QStep.producerStep, QStep.producerStep, QStep.consumerStep,
          QStep.producerStep, QStep.consumerStep]).consumed.length :=
  queue_fifo_order [QStep.producerStep, QStep.producerStep, QStep.consumerStep,
    QStep.producerStep, QStep.consumerStep]

/-- Witness for `queue_join_terminates` on the schedule producer,
producer, consumer. -/
theorem queue_join_terminates_witness :
    (qRun [QStep.producerStep, QStep.producerStep, QStep.consumerStep]).unfinished =
      (qRun [QStep.producerStep, QStep.producerStep, QStep.consumerStep]).buffer.length ∧
    (qDrain (qRun [QStep.producerStep, QStep.producerStep,
          QStep.consumerStep]).buffer.length
        (qRun [QStep.producerStep, QStep.producerStep, QStep.consumerStep])).buffer = [] ∧
    (qDrain (qRun [QStep.producerStep, QStep.producerStep,
          QStep.consumerStep]).buffer.length
        (qRun [QStep.producerStep, QStep.producerStep, QStep.consumerStep])).unfinished = 0 :=
  queue_join_terminates [QStep.producerStep, QStep.producerStep, QStep.consumerStep]
